import Mathlib

/-!
Shallow embedding of the RFID door lock firmware (src/src/main.cpp).

Arduino `String` values are modelled as `List Char`.  The LittleFS store
file `/uids.txt` is modelled by its character content (`List Char`)
together with explicit booleans for the fallible filesystem operations:
`fsExists` models `LittleFS.exists("/uids.txt")`, `readOk` models success
of `LittleFS.open(..., "r")`, and `openOk`/`wOk` model success of
`LittleFS.open(..., "a")`.  The control loop (`loop`, lines 61-90) is
embedded as a pure step function on an explicit state record; the two
`millis()` calls inside one iteration are modelled as the same instant
`now`, and `unsigned long` subtraction is modelled modulo `2 ^ 32`.
-/

namespace RFID

/-- Arduino strings are byte strings; we model them as lists of characters. -/
abbrev Str := List Char

/-- Model of the character class used by Arduino `String::trim` (C `isspace`):
space (32) and the control characters 9..13. -/
def isWsChar (c : Char) : Bool := c.toNat = 32 || (9 ≤ c.toNat && c.toNat ≤ 13)

/-- Model of C `toupper` as applied bytewise by Arduino `String::toUpperCase`:
letters a..z (97..122) are shifted down by 32, all other characters are kept. -/
def toUpperChar (c : Char) : Char :=
  if 97 ≤ c.toNat ∧ c.toNat ≤ 122 then Char.ofNat (c.toNat - 32) else c

/-- Model of Arduino `String::trim`: drop leading and trailing whitespace. -/
def trimL (s : Str) : Str :=
  ((s.dropWhile isWsChar).reverse.dropWhile isWsChar).reverse

/-- Model of Arduino `String::toUpperCase` applied to a whole string. -/
def toUpperL (s : Str) : Str := s.map toUpperChar

/-- The uid normalization performed at lines 115-116 and 163-164:
`uid.trim(); uid.toUpperCase();`. -/
def normUID (s : Str) : Str := toUpperL (trimL s)

/-- Model of Arduino `String::indexOf(ch)` (first occurrence); the C++ result
-1 for "not found" is modelled as `none`. -/
def indexOfC (c : Char) : Str → Option Nat
  | [] => none
  | a :: as => if a = c then some 0 else (indexOfC c as).map (· + 1)

/-- Model of Arduino `String::lastIndexOf(ch)` (last occurrence); -1 is `none`. -/
def lastIndexOfC (c : Char) : Str → Option Nat
  | [] => none
  | a :: as =>
    match lastIndexOfC c as with
    | some i => some (i + 1)
    | none => if a = c then some 0 else none

/-- Model of Arduino `String::substring(from, to)` (`to` exclusive).  Every
call site in `checkUID` satisfies `from ≤ to`, the only case used here. -/
def sub (s : Str) (a b : Nat) : Str := (s.take b).drop a

/-- Splits character content at every newline, keeping a (possibly empty)
final piece; helper for `readLines`. -/
def splitNl : Str → List Str
  | [] => [[]]
  | c :: rest =>
    if c = '\n' then [] :: splitNl rest
    else
      match splitNl rest with
      | [] => [[c]]
      | l :: ls => (c :: l) :: ls

/-- Model of the read loop at lines 178-179
(`while (file.available()) { String line = file.readStringUntil(Char.ofNat 10); ... }`):
the successive lines delivered by `readStringUntil` on the given file content.
When the content ends with a newline there is no final empty read, because
`available()` is already false after the last newline is consumed. -/
def readLines (cs : Str) : List Str :=
  if cs = [] then []
  else if cs.getLast? = some '\n' then (splitNl cs).dropLast
  else splitNl cs

/-- The content of a store file made of the given newline-terminated lines;
this is the shape `registerUID` maintains when growing the file from empty. -/
def joinLines : List Str → Str
  | [] => []
  | l :: ls => l ++ '\n' :: joinLines ls

/-- The per-line parsing block of `checkUID` (lines 180-201): trim the line,
skip it when empty, locate the first and last comma, skip when fewer than two
separators are available, and otherwise produce the normalized stored uid
together with the raw name and role fields. -/
def lineFields (l : Str) : Option (Str × Str × Str) :=
  if trimL l = [] then none
  else
    match indexOfC ',' (trimL l), lastIndexOfC ',' (trimL l) with
    | some i, some j =>
      if i = j then none
      else
        some (toUpperL (trimL (sub (trimL l) 0 i)), sub (trimL l) (i + 1) j,
          (trimL l).drop (j + 1))
    | _, _ => none

/-- The scan loop of `checkUID` (lines 178-207) over the list of lines read
from the file: return the name/role fields of the first line whose normalized
stored uid equals the (already normalized) argument. -/
def checkScan (u : Str) : List Str → Option (Str × Str)
  | [] => none
  | l :: ls =>
    match lineFields l with
    | none => checkScan u ls
    | some f => if f.1 = u then some (f.2.1, f.2.2) else checkScan u ls

/-- Embedding of `checkUID` (lines 162-212).  `fsExists` models the
`LittleFS.exists` test at line 166, `readOk` the `open` test at line 172.
The nullable out-parameters of the C++ function only receive the returned
fields and do not affect control flow, so the result is an `Option` pair. -/
def checkUID (uid : Str) (fsExists readOk : Bool) (content : Str) :
    Option (Str × Str) :=
  let u := normUID uid
  if fsExists = false then none
  else if readOk = false then none
  else checkScan u (readLines content)

/-- Embedding of `registerUID` (lines 114-133): normalize the fields, fail
when the file cannot be opened for append (`openOk = false`), and otherwise
append one CSV line; returns the new file content and the success flag. -/
def registerUID (uid name role : Str) (openOk : Bool) (content : Str) :
    Str × Bool :=
  let u := toUpperL (trimL uid)
  let n := trimL name
  let r := toUpperL (trimL role)
  if openOk = false then (content, false)
  else (content ++ u ++ [','] ++ n ++ [','] ++ r ++ ['\n'], true)

/-- Embedding of the `POST /register` handler (lines 312-334): reject an
empty uid with 400, report an existing uid with 200 and no store change,
otherwise attempt `registerUID` and answer 200 on success or 500 on write
failure.  The result is (status, body, new store content). -/
def handleRegister (uid name role : Str) (fsExists readOk wOk : Bool)
    (content : Str) : Nat × String × Str :=
  if uid.isEmpty then (400, "No UID scanned!", content)
  else if (checkUID uid fsExists readOk content).isSome then
    (200, "UID already exists", content)
  else
    let res := registerUID uid name role wOk content
    if res.2 then (200, "UID registered successfully!", res.1)
    else (500, "Failed to save UID!", res.1)

/-- The mutable globals of the sketch that the control loop touches
(lines 18-26): door state flag, unlock timestamp, the actuator state set by
`lockControl` (`locked = true` means the pin is LOW, actuator de-energized),
and `lastScannedUID`. -/
structure LoopState where
  isUnlocked : Bool
  unlockStartTime : Nat
  locked : Bool
  lastScannedUID : Str
  deriving DecidableEq, Repr

/-- `const unsigned long UNLOCK_DURATION = 7000UL;` (line 26). -/
def UNLOCK_DURATION : Nat := 7000

/-- `millis() - unlockStartTime` with 32-bit `unsigned long` wraparound
semantics, for `now` and `start` below `2 ^ 32`. -/
def elapsedMs (now start : Nat) : Nat := (2 ^ 32 + now - start) % 2 ^ 32

/-- The auto-relock block of `loop` (lines 64-68): when unlocked and the
elapsed time reaches `UNLOCK_DURATION`, engage the lock and clear the flag. -/
def timeoutPhase (st : LoopState) (now : Nat) : LoopState :=
  if st.isUnlocked = true ∧ UNLOCK_DURATION ≤ elapsedMs now st.unlockStartTime
  then { st with locked := true, isUnlocked := false }
  else st

/-- The tag-handling block of `loop` (lines 70-87): on a non-empty scan,
record it in `lastScannedUID`, and either grant (unlock, set the flag,
record the unlock time) when `checkUID` succeeds or engage the lock when it
fails.  An empty scan leaves the state alone. -/
def scanPhase (st : LoopState) (now : Nat) (uid : Str)
    (fsExists readOk : Bool) (content : Str) : LoopState :=
  if uid = [] then st
  else
    match checkUID uid fsExists readOk content with
    | some _ =>
      { st with
        lastScannedUID := uid
        locked := false
        isUnlocked := true
        unlockStartTime := now }
    | none => { st with lastScannedUID := uid, locked := true }

/-- One iteration of `loop` (lines 61-90): the scan result `uid` is the value
of `scanTag()`, the timeout block runs first, then the tag-handling block. -/
def loopStep (st : LoopState) (now : Nat) (uid : Str)
    (fsExists readOk : Bool) (content : Str) : LoopState :=
  scanPhase (timeoutPhase st now) now uid fsExists readOk content

/-- A line matches a normalized uid when it parses and its stored-uid field
equals that uid; this is the match test of lines 192-197 as a predicate. -/
def lineMatches (u l : Str) : Bool :=
  match lineFields l with
  | some f => f.1 == u
  | none => false

/-- Number of store lines whose stored uid matches the given normalized uid. -/
def countMatches (u : Str) (ls : List Str) : Nat :=
  (ls.filter (fun l => lineMatches u l)).length

/-- The CSV line that `registerUID` appends for the given raw inputs
(line 127: three normalized fields joined by commas). -/
def recLine (uid name role : Str) : Str :=
  toUpperL (trimL uid) ++ ',' :: trimL name ++ ',' :: toUpperL (trimL role)

/-! ### Character-level facts about the `isspace` and `toupper` models -/

theorem toNat_ofNat_le {n : Nat} (h : n ≤ 122) : (Char.ofNat n).toNat = n := by
  have hv : n.isValidChar := Or.inl (by omega)
  rw [Char.ofNat, dif_pos hv]
  rfl

theorem toUpperChar_toNat_of_lower {c : Char}
    (h : 97 ≤ c.toNat ∧ c.toNat ≤ 122) :
    (toUpperChar c).toNat = c.toNat - 32 := by
  rw [toUpperChar, if_pos h, toNat_ofNat_le (by omega)]

theorem toUpperChar_of_not_lower {c : Char}
    (h : ¬(97 ≤ c.toNat ∧ c.toNat ≤ 122)) : toUpperChar c = c := by
  rw [toUpperChar, if_neg h]

theorem isWsChar_iff {c : Char} :
    isWsChar c = true ↔ c.toNat = 32 ∨ (9 ≤ c.toNat ∧ c.toNat ≤ 13) := by
  simp [isWsChar]

/-- `toupper` maps letters into 65..90 and keeps everything else, so it never
changes whether a character is whitespace. -/
theorem isWs_toUpperChar (c : Char) : isWsChar (toUpperChar c) = isWsChar c := by
  by_cases h : 97 ≤ c.toNat ∧ c.toNat ≤ 122
  · have h2 := toUpperChar_toNat_of_lower h
    rw [Bool.eq_iff_iff, isWsChar_iff, isWsChar_iff, h2]
    omega
  · rw [toUpperChar_of_not_lower h]

theorem toUpperChar_idem (c : Char) :
    toUpperChar (toUpperChar c) = toUpperChar c := by
  by_cases h : 97 ≤ c.toNat ∧ c.toNat ≤ 122
  · have h2 := toUpperChar_toNat_of_lower h
    exact toUpperChar_of_not_lower (by omega)
  · rw [toUpperChar_of_not_lower h, toUpperChar_of_not_lower h]

/-- Characters with code below 65 (such as a comma or a newline) are only
produced by `toupper` from themselves. -/
theorem toUpperChar_eq_low {c d : Char} (hd : d.toNat < 65)
    (h : toUpperChar c = d) : c = d := by
  by_cases hc : 97 ≤ c.toNat ∧ c.toNat ≤ 122
  · have h2 := toUpperChar_toNat_of_lower hc
    rw [h] at h2
    omega
  · rwa [toUpperChar_of_not_lower hc] at h

/-! ### Facts about `trimL`, `toUpperL` and `normUID` -/

theorem mem_of_mem_dropWhile {p : Char → Bool} {s : Str} {a : Char}
    (h : a ∈ s.dropWhile p) : a ∈ s :=
  (List.dropWhile_sublist _).subset h

theorem mem_of_mem_trimL {s : Str} {a : Char} (h : a ∈ trimL s) : a ∈ s := by
  unfold trimL at h
  rw [List.mem_reverse] at h
  have h2 := mem_of_mem_dropWhile h
  rw [List.mem_reverse] at h2
  exact mem_of_mem_dropWhile h2

theorem mem_of_mem_toUpperL_low {s : Str} {d : Char} (hd : d.toNat < 65)
    (h : d ∈ toUpperL s) : d ∈ s := by
  obtain ⟨c, hc, he⟩ := List.mem_map.1 h
  rwa [← toUpperChar_eq_low hd he]

theorem mem_of_mem_normUID_low {s : Str} {d : Char} (hd : d.toNat < 65)
    (h : d ∈ normUID s) : d ∈ s :=
  mem_of_mem_trimL (mem_of_mem_toUpperL_low hd h)

theorem head?_dropWhile_not {p : Char → Bool} {s : Str} {a : Char}
    (h : (s.dropWhile p).head? = some a) : p a = false := by
  induction s with
  | nil => simp [List.dropWhile] at h
  | cons b bs ih =>
    rw [List.dropWhile_cons] at h
    by_cases hb : p b
    · rw [if_pos hb] at h
      exact ih h
    · rw [if_neg hb] at h
      simp at h
      rw [← h]
      exact Bool.eq_false_iff.2 hb

theorem dropWhile_eq_self_of_head {p : Char → Bool} {s : Str}
    (h : ∀ a, s.head? = some a → p a = false) : s.dropWhile p = s := by
  cases s with
  | nil => rfl
  | cons b bs =>
    rw [List.dropWhile_cons, if_neg]
    rw [h b rfl]
    simp

theorem getLast?_dropWhile_of_ne_nil {p : Char → Bool} {s : Str}
    (h : s.dropWhile p ≠ []) : (s.dropWhile p).getLast? = s.getLast? := by
  induction s with
  | nil => simp [List.dropWhile] at h
  | cons b bs ih =>
    rw [List.dropWhile_cons]
    by_cases hb : p b
    · rw [List.dropWhile_cons, if_pos hb] at h
      have hbs : bs ≠ [] := by
        intro he
        rw [he] at h
        exact h rfl
      rw [if_pos hb, ih h]
      exact (List.getLast?_append_of_ne_nil [b] hbs).symm
    · rw [if_neg hb]

theorem dropWhile_toUpperL (s : Str) :
    (toUpperL s).dropWhile isWsChar = toUpperL (s.dropWhile isWsChar) := by
  induction s with
  | nil => rfl
  | cons b bs ih =>
    show (toUpperChar b :: toUpperL bs).dropWhile isWsChar = _
    rw [List.dropWhile_cons, List.dropWhile_cons, isWs_toUpperChar]
    by_cases hb : isWsChar b
    · rw [if_pos hb, if_pos hb, ih]
    · rw [if_neg hb, if_neg hb]
      rfl

theorem reverse_toUpperL (s : Str) :
    (toUpperL s).reverse = toUpperL s.reverse := by
  unfold toUpperL
  exact (List.map_reverse toUpperChar s).symm

theorem trimL_toUpperL (s : Str) : trimL (toUpperL s) = toUpperL (trimL s) := by
  unfold trimL
  rw [dropWhile_toUpperL, reverse_toUpperL, dropWhile_toUpperL, reverse_toUpperL]

theorem trimL_head_not_ws {s : Str} {a : Char}
    (h : (trimL s).head? = some a) : isWsChar a = false := by
  unfold trimL at h
  rw [List.head?_reverse] at h
  have hne : (s.dropWhile isWsChar).reverse.dropWhile isWsChar ≠ [] := by
    intro he
    rw [he] at h
    simp at h
  rw [getLast?_dropWhile_of_ne_nil hne, List.getLast?_reverse] at h
  exact head?_dropWhile_not h

theorem trimL_getLast_not_ws {s : Str} {a : Char}
    (h : (trimL s).getLast? = some a) : isWsChar a = false := by
  unfold trimL at h
  rw [List.getLast?_reverse] at h
  exact head?_dropWhile_not h

theorem trimL_eq_self {s : Str}
    (h1 : ∀ a, s.head? = some a → isWsChar a = false)
    (h2 : ∀ a, s.getLast? = some a → isWsChar a = false) : trimL s = s := by
  unfold trimL
  rw [dropWhile_eq_self_of_head h1, dropWhile_eq_self_of_head, List.reverse_reverse]
  intro a ha
  rw [List.head?_reverse] at ha
  exact h2 a ha

theorem trimL_idem (s : Str) : trimL (trimL s) = trimL s :=
  trimL_eq_self (fun _ h => trimL_head_not_ws h) (fun _ h => trimL_getLast_not_ws h)

theorem toUpperL_idem (s : Str) : toUpperL (toUpperL s) = toUpperL s := by
  unfold toUpperL
  rw [List.map_map]
  exact List.map_congr_left (fun a _ => toUpperChar_idem a)

theorem normUID_idem (s : Str) : normUID (normUID s) = normUID s := by
  unfold normUID
  rw [trimL_toUpperL, trimL_idem, toUpperL_idem]

theorem head?_toUpperL (s : Str) :
    (toUpperL s).head? = s.head?.map toUpperChar :=
  List.head?_map toUpperChar s

theorem getLast?_toUpperL (s : Str) :
    (toUpperL s).getLast? = s.getLast?.map toUpperChar := by
  rw [← List.head?_reverse, reverse_toUpperL, head?_toUpperL, List.head?_reverse]

/-- Whatever survives at the front of a fully normalized uid is not
whitespace. -/
theorem head_not_ws_of_norm {U : Str} {a : Char} (hU : normUID U = U)
    (h : U.head? = some a) : isWsChar a = false := by
  rw [← hU] at h
  unfold normUID at h
  rw [head?_toUpperL] at h
  cases hb : (trimL U).head? with
  | none => rw [hb] at h; simp at h
  | some b =>
    rw [hb] at h
    simp at h
    rw [← h, isWs_toUpperChar]
    exact trimL_head_not_ws hb

theorem getLast_not_ws_of_norm {U : Str} {a : Char} (hU : normUID U = U)
    (h : U.getLast? = some a) : isWsChar a = false := by
  rw [← hU] at h
  unfold normUID at h
  rw [getLast?_toUpperL] at h
  cases hb : (trimL U).getLast? with
  | none => rw [hb] at h; simp at h
  | some b =>
    rw [hb] at h
    simp at h
    rw [← h, isWs_toUpperChar]
    exact trimL_getLast_not_ws hb

/-! ### Facts about `indexOfC`, `lastIndexOfC` and comma counting -/

theorem indexOfC_eq_none_iff {c : Char} {l : Str} :
    indexOfC c l = none ↔ c ∉ l := by
  induction l with
  | nil => simp [indexOfC]
  | cons a as ih =>
    rw [indexOfC]
    by_cases ha : a = c
    · simp [ha]
    · simp only [if_neg ha, Option.map_eq_none', ih, List.mem_cons]
      constructor
      · intro h hm
        rcases hm with hm | hm
        · exact ha hm.symm
        · exact h hm
      · intro h hm
        exact h (Or.inr hm)

theorem lastIndexOfC_eq_none_iff {c : Char} {l : Str} :
    lastIndexOfC c l = none ↔ c ∉ l := by
  induction l with
  | nil => simp [lastIndexOfC]
  | cons a as ih =>
    rw [lastIndexOfC]
    cases h : lastIndexOfC c as with
    | some i =>
      have : c ∈ as := by
        by_contra hm
        rw [← ih] at hm
        rw [h] at hm
        exact Option.noConfusion hm
      simp [this]
    | none =>
      have hm : c ∉ as := ih.1 h
      by_cases ha : a = c
      · simp [ha]
      · simp only [if_neg ha, List.mem_cons]
        constructor
        · intro _ hc
          rcases hc with hc | hc
          · exact ha hc.symm
          · exact hm hc
        · intro _
          trivial

theorem indexOfC_append_sep {c : Char} {x y : Str} (h : c ∉ x) :
    indexOfC c (x ++ c :: y) = some x.length := by
  induction x with
  | nil => simp [indexOfC]
  | cons a x2 ih =>
    have ha : ¬(a = c) := fun he => h (he ▸ List.mem_cons_self a x2)
    rw [List.cons_append, indexOfC, if_neg ha,
      ih (fun hm => h (List.mem_cons_of_mem a hm))]
    rfl

theorem not_mem_take_of_indexOfC {c : Char} {l : Str} {i : Nat}
    (h : indexOfC c l = some i) : c ∉ l.take i := by
  induction l generalizing i with
  | nil => simp [indexOfC] at h
  | cons a as ih =>
    rw [indexOfC] at h
    by_cases ha : a = c
    · rw [if_pos ha] at h
      simp at h
      rw [← h]
      simp
    · rw [if_neg ha] at h
      cases h2 : indexOfC c as with
      | none => rw [h2] at h; simp at h
      | some i0 =>
        rw [h2] at h
        simp at h
        rw [← h, List.take_succ_cons]
        intro hm
        rcases List.mem_cons.1 hm with hm | hm
        · exact ha hm.symm
        · exact ih h2 hm

theorem lastIndexOfC_append_sep {c : Char} {x y : Str} (h : c ∉ y) :
    lastIndexOfC c (x ++ c :: y) = some x.length := by
  induction x with
  | nil =>
    rw [List.nil_append, lastIndexOfC, lastIndexOfC_eq_none_iff.2 h, if_pos rfl]
    rfl
  | cons a x2 ih =>
    rw [List.cons_append, lastIndexOfC, ih]
    rfl

theorem lastIndexOfC_append_ge (c : Char) (x y : Str) :
    ∃ j, lastIndexOfC c (x ++ c :: y) = some j ∧ x.length ≤ j := by
  induction x with
  | nil =>
    rw [List.nil_append, lastIndexOfC]
    cases h : lastIndexOfC c y with
    | some i => exact ⟨i + 1, rfl, Nat.zero_le _⟩
    | none => exact ⟨0, by rw [if_pos rfl], Nat.le_refl 0⟩
  | cons a x2 ih =>
    obtain ⟨j, hj, hge⟩ := ih
    refine ⟨j + 1, ?_, by simpa using Nat.succ_le_succ hge⟩
    rw [List.cons_append, lastIndexOfC, hj]

theorem count_one_index_eq {c : Char} {l : Str} (h : l.count c = 1) :
    ∃ i, indexOfC c l = some i ∧ lastIndexOfC c l = some i := by
  induction l with
  | nil => simp at h
  | cons a as ih =>
    rw [List.count_cons] at h
    by_cases ha : a = c
    · have hz : as.count c = 0 := by simp [ha] at h; omega
      have hm : c ∉ as := List.count_eq_zero.1 hz
      refine ⟨0, ?_, ?_⟩
      · rw [indexOfC, if_pos ha]
      · rw [lastIndexOfC, lastIndexOfC_eq_none_iff.2 hm, if_pos ha]
    · have h1 : as.count c = 1 := by
        have : (a == c) = false := by simp [ha]
        rw [this] at h
        simpa using h
      obtain ⟨i, hi1, hi2⟩ := ih h1
      refine ⟨i + 1, ?_, ?_⟩
      · rw [indexOfC, if_neg ha, hi1]
        rfl
      · rw [lastIndexOfC, hi2]

theorem count_dropWhile_of_not_ws {c : Char} (hc : isWsChar c = false)
    (l : Str) : (l.dropWhile isWsChar).count c = l.count c := by
  induction l with
  | nil => rfl
  | cons a as ih =>
    rw [List.dropWhile_cons]
    by_cases ha : isWsChar a
    · have hne : (a == c) = false := by
        simp only [beq_eq_false_iff_ne, ne_eq]
        intro he
        rw [he, hc] at ha
        exact Bool.noConfusion ha
      rw [if_pos ha, ih, List.count_cons, hne]
      simp
    · rw [if_neg ha]

theorem count_trimL_comma (l : Str) : (trimL l).count ',' = l.count ',' := by
  have hc : isWsChar ',' = false := by decide
  unfold trimL
  rw [List.count_reverse, count_dropWhile_of_not_ws hc, List.count_reverse,
    count_dropWhile_of_not_ws hc]

/-! ### Facts about `readLines` and `joinLines` -/

theorem splitNl_ne_nil (cs : Str) : splitNl cs ≠ [] := by
  cases cs with
  | nil => simp [splitNl]
  | cons c rest =>
    rw [splitNl]
    by_cases h : c = '\n'
    · simp [h]
    · rw [if_neg h]
      cases splitNl rest <;> simp

theorem splitNl_append {l : Str} (rest : Str) (h : '\n' ∉ l) :
    splitNl (l ++ '\n' :: rest) = l :: splitNl rest := by
  induction l with
  | nil => simp [splitNl]
  | cons a l2 ih =>
    have ha : ¬(a = '\n') := fun he => h (he ▸ List.mem_cons_self a l2)
    have ih2 := ih (fun hm => h (List.mem_cons_of_mem a hm))
    rw [List.cons_append, splitNl, if_neg ha, ih2]

theorem readLines_cons {l : Str} (rest : Str) (h : '\n' ∉ l) :
    readLines (l ++ '\n' :: rest) = l :: readLines rest := by
  by_cases hrest : rest = []
  · subst hrest
    have hne : l ++ ['\n'] ≠ [] := by simp
    have hlast : (l ++ ['\n']).getLast? = some '\n' := List.getLast?_concat l
    rw [readLines, if_neg hne, if_pos hlast, splitNl_append [] h]
    rfl
  · have hne : l ++ '\n' :: rest ≠ [] := by simp
    have hlast : (l ++ '\n' :: rest).getLast? = rest.getLast? := by
      rw [show l ++ '\n' :: rest = (l ++ ['\n']) ++ rest by simp,
        List.getLast?_append_of_ne_nil _ hrest]
    by_cases hnl : rest.getLast? = some '\n'
    · have hp : (l ++ '\n' :: rest).getLast? = some '\n' := hlast.trans hnl
      rw [readLines, if_neg hne, if_pos hp, splitNl_append rest h,
        List.dropLast_cons_of_ne_nil (splitNl_ne_nil rest)]
      rw [readLines, if_neg hrest, if_pos hnl]
    · have hp : ¬((l ++ '\n' :: rest).getLast? = some '\n') :=
        fun he => hnl (hlast.symm.trans he)
      rw [readLines, if_neg hne, if_neg hp, splitNl_append rest h]
      rw [readLines, if_neg hrest, if_neg hnl]

/-- Reading back a file whose content is a sequence of newline-terminated
newline-free lines yields exactly those lines. -/
theorem readLines_joinLines {ls : List Str} (h : ∀ l ∈ ls, '\n' ∉ l) :
    readLines (joinLines ls) = ls := by
  induction ls with
  | nil => rfl
  | cons l ls2 ih =>
    rw [joinLines, readLines_cons _ (h l (List.mem_cons_self l ls2)),
      ih (fun x hx => h x (List.mem_cons_of_mem l hx))]

theorem joinLines_append (xs ys : List Str) :
    joinLines (xs ++ ys) = joinLines xs ++ joinLines ys := by
  induction xs with
  | nil => rfl
  | cons l xs2 ih =>
    rw [List.cons_append, joinLines, joinLines, ih]
    simp

/-! ### Facts about the scan loop -/

theorem checkScan_cons_none {u l : Str} {ls : List Str}
    (hf : lineFields l = none) : checkScan u (l :: ls) = checkScan u ls := by
  rw [checkScan, hf]

theorem checkScan_cons_some {u l : Str} {ls : List Str} {f : Str × Str × Str}
    (hf : lineFields l = some f) :
    checkScan u (l :: ls) =
      if f.1 = u then some (f.2.1, f.2.2) else checkScan u ls := by
  rw [checkScan, hf]

theorem checkScan_append_none {u : Str} {xs : List Str}
    (h : checkScan u xs = none) (ys : List Str) :
    checkScan u (xs ++ ys) = checkScan u ys := by
  induction xs with
  | nil => rfl
  | cons l xs2 ih =>
    rw [List.cons_append]
    cases hf : lineFields l with
    | none =>
      rw [checkScan_cons_none hf] at h
      rw [checkScan_cons_none hf]
      exact ih h
    | some f =>
      rw [checkScan_cons_some hf] at h
      rw [checkScan_cons_some hf]
      by_cases hu : f.1 = u
      · rw [if_pos hu] at h
        exact Option.noConfusion h
      · rw [if_neg hu] at h
        rw [if_neg hu]
        exact ih h

theorem checkScan_exists_match {u : Str} {ls : List Str} {r : Str × Str}
    (h : checkScan u ls = some r) : ∃ l ∈ ls, lineMatches u l = true := by
  induction ls with
  | nil => exact Option.noConfusion h
  | cons l ls2 ih =>
    cases hf : lineFields l with
    | none =>
      rw [checkScan_cons_none hf] at h
      obtain ⟨x, hx, hm⟩ := ih h
      exact ⟨x, List.mem_cons_of_mem l hx, hm⟩
    | some f =>
      rw [checkScan_cons_some hf] at h
      by_cases hu : f.1 = u
      · refine ⟨l, List.mem_cons_self l ls2, ?_⟩
        rw [lineMatches, hf]
        exact beq_iff_eq.2 hu
      · rw [if_neg hu] at h
        obtain ⟨x, hx, hm⟩ := ih h
        exact ⟨x, List.mem_cons_of_mem l hx, hm⟩

theorem checkScan_none_of_forall {u : Str} {ls : List Str}
    (h : ∀ l ∈ ls, lineMatches u l = false) : checkScan u ls = none := by
  induction ls with
  | nil => rfl
  | cons l ls2 ih =>
    have hl := h l (List.mem_cons_self l ls2)
    have ih2 := ih (fun x hx => h x (List.mem_cons_of_mem l hx))
    rw [lineMatches] at hl
    cases hf : lineFields l with
    | none => rw [checkScan_cons_none hf]; exact ih2
    | some f =>
      rw [checkScan_cons_some hf]
      rw [hf] at hl
      have hne : (f.1 == u) = false := hl
      rw [if_neg (fun he => by rw [beq_iff_eq.2 he] at hne; exact Bool.noConfusion hne)]
      exact ih2

/-! ### Parsing the record line written by `registerUID` -/

/-- A CSV line whose uid and role parts are fully normalized has no leading
or trailing whitespace, so re-reading it through `String::trim` is a no-op. -/
theorem trimL_line {U R : Str} (N : Str) (hU : normUID U = U)
    (hR : normUID R = R) :
    trimL (U ++ ',' :: N ++ ',' :: R) = U ++ ',' :: N ++ ',' :: R := by
  apply trimL_eq_self
  · intro a ha
    cases U with
    | nil =>
      simp at ha
      rw [← ha]
      decide
    | cons b U2 =>
      simp only [List.cons_append, List.head?_cons] at ha
      have hb : (b :: U2).head? = some b := List.head?_cons
      have := head_not_ws_of_norm hU hb
      rwa [Option.some_inj.1 ha] at this
  · intro a ha
    cases hR2 : R with
    | nil =>
      subst hR2
      rw [show U ++ ',' :: N ++ ',' :: ([] : Str) = (U ++ ',' :: N) ++ [','] by
        simp] at ha
      rw [List.getLast?_concat] at ha
      rw [← Option.some_inj.1 ha]
      decide
    | cons c R2 =>
      subst hR2
      rw [show U ++ ',' :: N ++ ',' :: c :: R2 = (U ++ ',' :: N ++ [',']) ++ c :: R2 by
        simp] at ha
      rw [List.getLast?_append_of_ne_nil _ (List.cons_ne_nil c R2)] at ha
      exact getLast_not_ws_of_norm hR ha

/-- Parsing the exact line `U,N,R` recovers the three fields when the uid
and role carry no comma and uid/role are normalized (the name may contain
commas: the first/last-comma rule protects it). -/
theorem lineFields_record {U R : Str} (N : Str) (hU : normUID U = U)
    (hR : normUID R = R) (hUc : ',' ∉ U) (hRc : ',' ∉ R) :
    lineFields (U ++ ',' :: N ++ ',' :: R) = some (U, N, R) := by
  have hassoc : U ++ ',' :: N ++ ',' :: R = U ++ ',' :: (N ++ ',' :: R) := by
    simp
  have ht := trimL_line N hU hR
  have hne : U ++ ',' :: N ++ ',' :: R ≠ [] := by simp
  have e1 : indexOfC ',' (U ++ ',' :: N ++ ',' :: R) = some U.length := by
    rw [hassoc]
    exact indexOfC_append_sep hUc
  have e2 : lastIndexOfC ',' (U ++ ',' :: N ++ ',' :: R)
      = some (U ++ ',' :: N).length :=
    lastIndexOfC_append_sep hRc
  have hij : U.length ≠ (U ++ ',' :: N).length := by
    simp [List.length_append]
  have hs1 : sub (U ++ ',' :: N ++ ',' :: R) 0 U.length = U := by
    show ((U ++ ',' :: N ++ ',' :: R).take U.length).drop 0 = U
    rw [List.drop_zero, hassoc]
    exact List.take_left U _
  have hs2 : sub (U ++ ',' :: N ++ ',' :: R) (U.length + 1)
      (U ++ ',' :: N).length = N := by
    show (((U ++ ',' :: N) ++ ',' :: R).take (U ++ ',' :: N).length).drop
      (U.length + 1) = N
    rw [List.take_left (U ++ ',' :: N) _]
    have h2 := @List.drop_append Char U (',' :: N) 1
    rwa [List.drop_succ_cons, List.drop_zero] at h2
  have hs3 : (U ++ ',' :: N ++ ',' :: R).drop ((U ++ ',' :: N).length + 1)
      = R := by
    show ((U ++ ',' :: N) ++ ',' :: R).drop ((U ++ ',' :: N).length + 1) = R
    have h2 := @List.drop_append Char (U ++ ',' :: N) (',' :: R) 1
    rwa [List.drop_succ_cons, List.drop_zero] at h2
  unfold lineFields
  rw [ht, if_neg hne, e1, e2]
  show (if U.length = (U ++ ',' :: N).length then none
    else some (toUpperL (trimL (sub (U ++ ',' :: N ++ ',' :: R) 0 U.length)),
      sub (U ++ ',' :: N ++ ',' :: R) (U.length + 1) (U ++ ',' :: N).length,
      (U ++ ',' :: N ++ ',' :: R).drop ((U ++ ',' :: N).length + 1)))
    = some (U, N, R)
  rw [if_neg hij, hs1, hs2, hs3]
  unfold normUID at hU
  rw [hU]

/-- Even when the role part contains commas, the line `U,N,R` still parses
and its stored-uid field is still `U`: the first comma sits right after `U`
and the last comma sits at or after the separator before `R`. -/
theorem lineFields_record_exists {U R : Str} (N : Str) (hU : normUID U = U)
    (hR : normUID R = R) (hUc : ',' ∉ U) :
    ∃ n r, lineFields (U ++ ',' :: N ++ ',' :: R) = some (U, n, r) := by
  have hassoc : U ++ ',' :: N ++ ',' :: R = U ++ ',' :: (N ++ ',' :: R) := by
    simp
  have ht := trimL_line N hU hR
  have hne : U ++ ',' :: N ++ ',' :: R ≠ [] := by simp
  have e1 : indexOfC ',' (U ++ ',' :: N ++ ',' :: R) = some U.length := by
    rw [hassoc]
    exact indexOfC_append_sep hUc
  obtain ⟨j, hj, hge⟩ := lastIndexOfC_append_ge ',' (U ++ ',' :: N) R
  have hij : U.length ≠ j := by
    simp only [List.length_append, List.length_cons] at hge
    omega
  have hs1 : sub (U ++ ',' :: N ++ ',' :: R) 0 U.length = U := by
    show ((U ++ ',' :: N ++ ',' :: R).take U.length).drop 0 = U
    rw [List.drop_zero, hassoc]
    exact List.take_left U _
  refine ⟨sub (U ++ ',' :: N ++ ',' :: R) (U.length + 1) j,
    (U ++ ',' :: N ++ ',' :: R).drop (j + 1), ?_⟩
  unfold lineFields
  rw [ht, if_neg hne, e1, hj]
  show (if U.length = j then none
    else some (toUpperL (trimL (sub (U ++ ',' :: N ++ ',' :: R) 0 U.length)),
      sub (U ++ ',' :: N ++ ',' :: R) (U.length + 1) j,
      (U ++ ',' :: N ++ ',' :: R).drop (j + 1))) = _
  rw [if_neg hij, hs1]
  unfold normUID at hU
  rw [hU]

/-! ### Bridging lemmas -/

/-- With the store present and readable, `checkUID` is exactly the line scan
applied to the normalized query. -/
theorem checkUID_true_true (uid content : Str) :
    checkUID uid true true content
      = checkScan (normUID uid) (readLines content) := rfl

theorem not_mem_trimL {s : Str} {d : Char} (h : d ∉ s) : d ∉ trimL s :=
  fun hm => h (mem_of_mem_trimL hm)

theorem not_mem_normUID {s : Str} {d : Char} (hd : d.toNat < 65)
    (h : d ∉ s) : d ∉ normUID s :=
  fun hm => h (mem_of_mem_normUID_low hd hm)

/-- The stored-uid field produced by the line parser is normalized, has no
comma (it stops at the first comma), and only draws characters from the
line itself. -/
theorem lineFields_fst {l : Str} {f : Str × Str × Str}
    (h : lineFields l = some f) :
    normUID f.1 = f.1 ∧ ',' ∉ f.1 ∧ ('\n' ∈ f.1 → '\n' ∈ l) := by
  unfold lineFields at h
  by_cases hn : trimL l = []
  · rw [if_pos hn] at h
    exact Option.noConfusion h
  · rw [if_neg hn] at h
    cases hi : indexOfC ',' (trimL l) with
    | none =>
      rw [hi] at h
      exact Option.noConfusion h
    | some i =>
      cases hj : lastIndexOfC ',' (trimL l) with
      | none =>
        rw [hi, hj] at h
        exact Option.noConfusion h
      | some j =>
        rw [hi, hj] at h
        have h2 : (if i = j then none
            else some (toUpperL (trimL (sub (trimL l) 0 i)),
              sub (trimL l) (i + 1) j, (trimL l).drop (j + 1))) = some f := h
        by_cases hij : i = j
        · rw [if_pos hij] at h2
          exact Option.noConfusion h2
        · rw [if_neg hij] at h2
          have hf1 : f.1 = normUID (sub (trimL l) 0 i) := by
            rw [← Option.some_inj.1 h2]
            rfl
          have hsubmem : ∀ d : Char, d ∈ sub (trimL l) 0 i → d ∈ (trimL l).take i := by
            intro d hd
            simp only [sub, List.drop_zero] at hd
            exact hd
          refine ⟨?_, ?_, ?_⟩
          · rw [hf1, normUID_idem]
          · rw [hf1]
            intro hm
            have := hsubmem ',' (mem_of_mem_normUID_low (by decide) hm)
            exact not_mem_take_of_indexOfC hi this
          · rw [hf1]
            intro hm
            have h3 := hsubmem '\n' (mem_of_mem_normUID_low (by decide) hm)
            exact mem_of_mem_trimL (List.take_subset i (trimL l) h3)

/-- A successful scan forces the queried normalized uid to look like a
stored uid field: normalized, comma-free, and newline-free whenever the
scanned lines are newline-free. -/
theorem checkScan_uid_shape {u : Str} {ls : List Str} {r : Str × Str}
    (hls : ∀ l ∈ ls, '\n' ∉ l) (h : checkScan u ls = some r) :
    normUID u = u ∧ ',' ∉ u ∧ '\n' ∉ u := by
  obtain ⟨l, hl, hm⟩ := checkScan_exists_match h
  rw [lineMatches] at hm
  cases hf : lineFields l with
  | none =>
    rw [hf] at hm
    exact Bool.noConfusion hm
  | some f =>
    rw [hf] at hm
    have hfu : f.1 = u := beq_iff_eq.1 hm
    obtain ⟨hnorm, hcomma, hnl⟩ := lineFields_fst hf
    rw [hfu] at hnorm hcomma hnl
    exact ⟨hnorm, hcomma, fun hm2 => hls l hl (hnl hm2)⟩

/-- Unfolding of a successful append: `registerUID` writes the normalized
CSV record followed by a newline at the end of the file. -/
theorem registerUID_true (uid name role content : Str) :
    registerUID uid name role true content
      = (content ++ recLine uid name role ++ ['\n'], true) := by
  unfold registerUID recLine
  simp

theorem registerUID_joinLines (uid name role : Str) (prev : List Str) :
    registerUID uid name role true (joinLines prev)
      = (joinLines (prev ++ [recLine uid name role]), true) := by
  rw [registerUID_true, joinLines_append]
  simp [joinLines]

/-- The characters of the record line come from the normalized fields, so
newline-free fields yield a newline-free record line. -/
theorem recLine_no_newline {uid name role : Str}
    (h1 : '\n' ∉ toUpperL (trimL uid)) (h2 : '\n' ∉ trimL name)
    (h3 : '\n' ∉ toUpperL (trimL role)) :
    '\n' ∉ recLine uid name role := by
  intro hm
  rw [recLine] at hm
  rcases List.mem_append.1 hm with hm | hm
  · rcases List.mem_append.1 hm with hm | hm
    · exact h1 hm
    · rcases List.mem_cons.1 hm with hm | hm
      · exact absurd hm (by decide)
      · exact h2 hm
  · rcases List.mem_cons.1 hm with hm | hm
    · exact absurd hm (by decide)
    · exact h3 hm

theorem countMatches_append (u : Str) (xs ys : List Str) :
    countMatches u (xs ++ ys) = countMatches u xs + countMatches u ys := by
  unfold countMatches
  rw [List.filter_append, List.length_append]

theorem countMatches_pos {u : Str} {ls : List Str} {l : Str} (hl : l ∈ ls)
    (hm : lineMatches u l = true) : 1 ≤ countMatches u ls := by
  unfold countMatches
  have : l ∈ ls.filter (fun x => lineMatches u x) := List.mem_filter.2 ⟨hl, hm⟩
  exact List.length_pos.2 (List.ne_nil_of_mem this)

theorem countMatches_singleton {u l : Str} (hm : lineMatches u l = true) :
    countMatches u [l] = 1 := by
  unfold countMatches
  rw [List.filter_cons, if_pos hm]
  rfl

/-- A line with at most one comma never produces fields: either the trimmed
line is empty, or the first and last comma coincide, or there is no comma. -/
theorem lineFields_none_of_count {l : Str} (h : l.count ',' ≤ 1) :
    lineFields l = none := by
  unfold lineFields
  by_cases hn : trimL l = []
  · rw [if_pos hn]
  · rw [if_neg hn]
    have hc : (trimL l).count ',' ≤ 1 := by
      rw [count_trimL_comma]
      exact h
    cases h0 : (trimL l).count ',' with
    | zero =>
      have hnm : ',' ∉ trimL l := List.count_eq_zero.1 h0
      rw [indexOfC_eq_none_iff.2 hnm]
    | succ k =>
      have h1 : (trimL l).count ',' = 1 := by omega
      obtain ⟨i, hi, hj⟩ := count_one_index_eq h1
      rw [hi, hj]
      show (if i = i then none
        else some (toUpperL (trimL (sub (trimL l) 0 i)),
          sub (trimL l) (i + 1) i, (trimL l).drop (i + 1))) = none
      rw [if_pos rfl]

/-- A line the parser rejects is transparent to the scan, wherever it sits. -/
theorem checkScan_skip {u l : Str} (hf : lineFields l = none)
    (pre post : List Str) :
    checkScan u (pre ++ l :: post) = checkScan u (pre ++ post) := by
  induction pre with
  | nil =>
    rw [List.nil_append, List.nil_append, checkScan_cons_none hf]
  | cons p pre2 ih =>
    rw [List.cons_append, List.cons_append]
    cases hp : lineFields p with
    | none =>
      rw [checkScan_cons_none hp, checkScan_cons_none hp, ih]
    | some f =>
      rw [checkScan_cons_some hp, checkScan_cons_some hp, ih]

/-! ### Equations for the loop phases -/

theorem timeoutPhase_fires {st : LoopState} {now : Nat}
    (hu : st.isUnlocked = true)
    (ht : UNLOCK_DURATION ≤ elapsedMs now st.unlockStartTime) :
    timeoutPhase st now = { st with locked := true, isUnlocked := false } := by
  rw [timeoutPhase, if_pos ⟨hu, ht⟩]

theorem timeoutPhase_idle {st : LoopState} {now : Nat}
    (ht : elapsedMs now st.unlockStartTime < UNLOCK_DURATION) :
    timeoutPhase st now = st := by
  rw [timeoutPhase, if_neg]
  intro h2
  exact absurd h2.2 (Nat.not_le.2 ht)

theorem scanPhase_empty (st : LoopState) (now : Nat) (fsExists readOk : Bool)
    (content : Str) : scanPhase st now [] fsExists readOk content = st := by
  rw [scanPhase, if_pos rfl]

theorem scanPhase_denied {uid : Str} {fsExists readOk : Bool} {content : Str}
    (hne : uid ≠ []) (hc : checkUID uid fsExists readOk content = none)
    (st : LoopState) (now : Nat) :
    scanPhase st now uid fsExists readOk content
      = { st with lastScannedUID := uid, locked := true } := by
  rw [scanPhase, if_neg hne, hc]

theorem scanPhase_granted {uid : Str} {fsExists readOk : Bool} {content : Str}
    {r : Str × Str} (hne : uid ≠ [])
    (hc : checkUID uid fsExists readOk content = some r)
    (st : LoopState) (now : Nat) :
    scanPhase st now uid fsExists readOk content
      = { st with
          lastScannedUID := uid
          locked := false
          isUnlocked := true
          unlockStartTime := now } := by
  rw [scanPhase, if_neg hne, hc]

/-! ## Claim theorems -/

/-- C1: if the store file does not exist (`fsExists = false`) or cannot be
opened for reading (`readOk = false`), `checkUID` returns the not-found
result for every queried uid and every file content: storage absence or
read failure during lookup never produces a grant. -/
theorem c1_checkUID_fails_closed (uid content : Str) (fsExists readOk : Bool)
    (h : fsExists = false ∨ readOk = false) :
    checkUID uid fsExists readOk content = none := by
  rcases h with h | h
  · subst h
    simp [checkUID]
  · subst h
    cases fsExists <;> simp [checkUID]

/-- Witness for C1: with the store file absent, looking up a uid whose
record the content would match still returns nothing. -/
theorem c1_checkUID_fails_closed_witness :
    checkUID ("AA:BB:CC:DD".toList) false true ("AA:BB:CC:DD,Bob,U\n".toList)
      = none :=
  c1_checkUID_fails_closed _ _ _ _ (Or.inl rfl)

/-- C3 counterexample: the claim says a successful re-scan before the
7-second deadline leaves the auto-relock timer unchanged, so that the door
relocks exactly 7000 ms after the original unlock.  On the code, a cycle at
3000 ms that re-scans the authorized tag overwrites `unlockStartTime` with
3000, and at 7000 ms (7000 ms after the original unlock at time 0) the door
is still unlocked. -/
theorem c3_rescan_cex :
    (loopStep ⟨true, 0, false, []⟩ 3000 ("AA:BB:CC:DD".toList) true true
        ("AA:BB:CC:DD,Bob,U\n".toList)).unlockStartTime = 3000 ∧
    (loopStep (loopStep ⟨true, 0, false, []⟩ 3000 ("AA:BB:CC:DD".toList) true
        true ("AA:BB:CC:DD,Bob,U\n".toList)) 7000 [] true true
        ("AA:BB:CC:DD,Bob,U\n".toList)).isUnlocked = true := by
  decide

/-- C3 (amended): a successful re-scan of an authorized tag while Unlocked
and before the deadline resets the auto-relock timer: the poll cycle ends
with `unlockStartTime` equal to the current cycle time, the door unlocked,
so the relock deadline is 7000 ms after the most recent successful scan. -/
theorem c3_rescan_resets_timer (st : LoopState) (now : Nat) (uid : Str)
    (fsExists readOk : Bool) (content : Str)
    (hu : st.isUnlocked = true)
    (ht : elapsedMs now st.unlockStartTime < UNLOCK_DURATION)
    (hne : uid ≠ [])
    (hc : (checkUID uid fsExists readOk content).isSome = true) :
    (loopStep st now uid fsExists readOk content).unlockStartTime = now ∧
    (loopStep st now uid fsExists readOk content).isUnlocked = true ∧
    (loopStep st now uid fsExists readOk content).locked = false := by
  obtain ⟨r, hr⟩ := Option.isSome_iff_exists.1 hc
  rw [loopStep, timeoutPhase_idle ht, scanPhase_granted hne hr]
  exact ⟨rfl, rfl, rfl⟩

/-- Witness for the amended C3: door unlocked at time 0, re-scan of the
stored tag at 3000 ms moves the timer to 3000 and keeps the door open. -/
theorem c3_rescan_resets_timer_witness :
    (loopStep ⟨true, 0, false, []⟩ 3000 ("AA:BB:CC:DD".toList) true true
        ("AA:BB:CC:DD,Bob,U\n".toList)).unlockStartTime = 3000 ∧
    (loopStep ⟨true, 0, false, []⟩ 3000 ("AA:BB:CC:DD".toList) true true
        ("AA:BB:CC:DD,Bob,U\n".toList)).isUnlocked = true ∧
    (loopStep ⟨true, 0, false, []⟩ 3000 ("AA:BB:CC:DD".toList) true true
        ("AA:BB:CC:DD,Bob,U\n".toList)).locked = false :=
  c3_rescan_resets_timer ⟨true, 0, false, []⟩ 3000 _ true true _ rfl
    (by decide) (by decide) (by decide)

/-- C4: when the state is Unlocked and at least 7000 ms have elapsed since
the recorded unlock timestamp, the next poll cycle de-energizes the
actuator and clears the unlock flag in its timeout block; and unless that
same cycle grants a fresh unlock from a new scan, the cycle ends Locked. -/
theorem c4_autolock_after_timeout (st : LoopState) (now : Nat) (uid : Str)
    (fsExists readOk : Bool) (content : Str)
    (hu : st.isUnlocked = true)
    (ht : UNLOCK_DURATION ≤ elapsedMs now st.unlockStartTime) :
    (timeoutPhase st now).locked = true ∧
    (timeoutPhase st now).isUnlocked = false ∧
    ((uid = [] ∨ checkUID uid fsExists readOk content = none) →
      (loopStep st now uid fsExists readOk content).locked = true ∧
      (loopStep st now uid fsExists readOk content).isUnlocked = false) := by
  have h1 := timeoutPhase_fires hu ht
  refine ⟨by rw [h1], by rw [h1], ?_⟩
  intro hd
  rw [loopStep, h1]
  rcases hd with hd | hd
  · subst hd
    rw [scanPhase_empty]
    exact ⟨rfl, rfl⟩
  · by_cases he : uid = []
    · subst he
      rw [scanPhase_empty]
      exact ⟨rfl, rfl⟩
    · rw [scanPhase_denied he hd]
      exact ⟨rfl, rfl⟩

/-- Witness for C4: unlocked since time 0, no scan at time 7000: the cycle
relocks the door. -/
theorem c4_autolock_after_timeout_witness :
    (loopStep ⟨true, 0, false, []⟩ 7000 [] true true []).locked = true ∧
    (loopStep ⟨true, 0, false, []⟩ 7000 [] true true []).isUnlocked = false :=
  (c4_autolock_after_timeout ⟨true, 0, false, []⟩ 7000 [] true true [] rfl
    (by decide)).2.2 (Or.inl rfl)

/-- C10: a poll cycle in the Unlocked state before the deadline that reads
a uid not in the store engages the lock in that same cycle while keeping
`isUnlocked` true and the unlock timestamp unchanged, so the Locked
transition still fires only at the 7000 ms deadline. -/
theorem c10_denied_scan_while_unlocked (st : LoopState) (now : Nat)
    (uid : Str) (fsExists readOk : Bool) (content : Str)
    (hu : st.isUnlocked = true)
    (ht : elapsedMs now st.unlockStartTime < UNLOCK_DURATION)
    (hne : uid ≠ [])
    (hc : checkUID uid fsExists readOk content = none) :
    (loopStep st now uid fsExists readOk content).locked = true ∧
    (loopStep st now uid fsExists readOk content).isUnlocked = true ∧
    (loopStep st now uid fsExists readOk content).unlockStartTime
      = st.unlockStartTime := by
  rw [loopStep, timeoutPhase_idle ht, scanPhase_denied hne hc]
  exact ⟨rfl, hu, rfl⟩

/-- Witness for C10: door unlocked since time 0, unknown tag at 100 ms:
lock engages, flag and timestamp untouched. -/
theorem c10_denied_scan_while_unlocked_witness :
    (loopStep ⟨true, 0, false, []⟩ 100 ("ZZ".toList) true true []).locked
      = true ∧
    (loopStep ⟨true, 0, false, []⟩ 100 ("ZZ".toList) true true []).isUnlocked
      = true ∧
    (loopStep ⟨true, 0, false, []⟩ 100 ("ZZ".toList) true true
      []).unlockStartTime = (⟨true, 0, false, []⟩ : LoopState).unlockStartTime :=
  c10_denied_scan_while_unlocked ⟨true, 0, false, []⟩ 100 _ true true [] rfl
    (by decide) (by decide) (by decide)

/-- C6: for every store content and input uid, the lookup returns the
fields of the first line (in file order) whose stored uid, trimmed and
uppercased, equals the normalized input uid; whatever lines follow that
first match are never returned. -/
theorem c6_lookup_first_match (uid content : Str) (pre post : List Str)
    (l su n r : Str)
    (hsplit : readLines content = pre ++ l :: post)
    (hpre : ∀ p ∈ pre, lineMatches (normUID uid) p = false)
    (hl : lineFields l = some (su, n, r)) (hsu : su = normUID uid) :
    checkUID uid true true content = some (n, r) := by
  rw [checkUID_true_true, hsplit,
    checkScan_append_none (checkScan_none_of_forall hpre),
    checkScan_cons_some hl, if_pos hsu]

/-- Witness for C6: with two records for AA:BB after a non-matching line,
the lookup returns the first record (Bob), not the later one (Eve). -/
theorem c6_lookup_first_match_witness :
    checkUID ("aa:bb".toList) true true
        ("XX\nAA:BB,Bob,U\nAA:BB,Eve,A\n".toList)
      = some ("Bob".toList, "U".toList) :=
  c6_lookup_first_match ("aa:bb".toList) _ ["XX".toList]
    ["AA:BB,Eve,A".toList] ("AA:BB,Bob,U".toList) ("AA:BB".toList)
    ("Bob".toList) ("U".toList) (by decide) (by decide) (by decide) (by decide)

/-- C7: a store line with zero commas or exactly one comma is rejected by
the line parser and is transparent to the scan: wherever it sits, the scan
result over the lines with it equals the result over the lines without it,
and the scan never aborts. -/
theorem c7_malformed_line_skipped (u l : Str) (pre post : List Str)
    (h : l.count ',' ≤ 1) :
    lineFields l = none ∧
    checkScan u (pre ++ l :: post) = checkScan u (pre ++ post) :=
  ⟨lineFields_none_of_count h,
    checkScan_skip (lineFields_none_of_count h) pre post⟩

/-- Witness for C7: a one-comma line in front of a real record neither
matches nor stops the scan. -/
theorem c7_malformed_line_skipped_witness :
    lineFields ("AA:BB,Bob".toList) = none ∧
    checkScan ("AA".toList) ([] ++ "AA:BB,Bob".toList :: ["AA,Eve,A".toList])
      = checkScan ("AA".toList) ([] ++ ["AA,Eve,A".toList]) :=
  c7_malformed_line_skipped ("AA".toList) ("AA:BB,Bob".toList) []
    ["AA,Eve,A".toList] (by decide)

/-- C8: the `POST /register` handler returns 400 on an empty uid field with
the store unchanged, 200 with the duplicate message (store unchanged) when
the lookup already succeeds, 200 with the success message when the append
succeeds, and 500 (store unchanged) when the write fails. -/
theorem c8_register_endpoint (uid name role content : Str)
    (fsExists readOk wOk : Bool) :
    (uid = [] →
      handleRegister uid name role fsExists readOk wOk content
        = (400, "No UID scanned!", content)) ∧
    (uid ≠ [] → (checkUID uid fsExists readOk content).isSome = true →
      handleRegister uid name role fsExists readOk wOk content
        = (200, "UID already exists", content)) ∧
    (uid ≠ [] → checkUID uid fsExists readOk content = none → wOk = true →
      handleRegister uid name role fsExists readOk wOk content
        = (200, "UID registered successfully!",
            (registerUID uid name role true content).1)) ∧
    (uid ≠ [] → checkUID uid fsExists readOk content = none → wOk = false →
      handleRegister uid name role fsExists readOk wOk content
        = (500, "Failed to save UID!", content)) := by
  refine ⟨?_, ?_, ?_, ?_⟩
  · intro he
    subst he
    rfl
  · intro hne hs
    cases uid with
    | nil => exact absurd rfl hne
    | cons a as => simp [handleRegister, hs]
  · intro hne hno hw
    subst hw
    cases uid with
    | nil => exact absurd rfl hne
    | cons a as => simp [handleRegister, hno, registerUID]
  · intro hne hno hw
    subst hw
    cases uid with
    | nil => exact absurd rfl hne
    | cons a as => simp [handleRegister, hno, registerUID]

/-- Witness for C8: an empty uid field is rejected with 400 and the store
content is returned unchanged. -/
theorem c8_register_endpoint_witness :
    handleRegister [] ("Bob".toList) ("u".toList) true true true []
      = (400, "No UID scanned!", []) :=
  (c8_register_endpoint [] ("Bob".toList) ("u".toList) [] true true true).1 rfl

/-- C2 counterexample: the claim quantifies over every record the insert
accepts, but a role containing a comma breaks the round trip.  Inserting
(uid AA, name B, role A,B) into an empty store succeeds and writes the line
AA,B,A,B; an immediate lookup of AA then succeeds but returns name B,A and
role B instead of the stored name B and stored role A,B. -/
theorem c2_roundtrip_cex :
    (registerUID ("AA".toList) ("B".toList) ("A,B".toList) true []).2
      = true ∧
    checkUID ("AA".toList) true true
        (registerUID ("AA".toList) ("B".toList) ("A,B".toList) true []).1
      = some ("B,A".toList, "B".toList) ∧
    ("B,A".toList, "B".toList)
      ≠ (trimL ("B".toList), toUpperL (trimL ("A,B".toList))) := by
  decide

/-- C2 (amended): for every record the insert accepts whose trimmed uid is
comma-free and newline-free, whose name is newline-free and whose role is
comma-free and newline-free, inserted into a well-formed store (a sequence
of newline-terminated, newline-free lines) holding no record matching that
uid, an immediate lookup with any string normalizing like the uid succeeds
and returns the stored (trimmed) name and stored (trimmed, uppercased)
role. -/
theorem c2_register_lookup_roundtrip (uid name role v : Str)
    (prev : List Str)
    (huc : ',' ∉ uid) (hun : '\n' ∉ uid) (hnn : '\n' ∉ name)
    (hrc : ',' ∉ role) (hrn : '\n' ∉ role)
    (hprev : ∀ l ∈ prev, '\n' ∉ l)
    (hnomatch : checkUID uid true true (joinLines prev) = none)
    (hv : normUID v = normUID uid) :
    registerUID uid name role true (joinLines prev)
      = (joinLines (prev ++ [recLine uid name role]), true) ∧
    checkUID v true true
        (registerUID uid name role true (joinLines prev)).1
      = some (trimL name, toUpperL (trimL role)) := by
  refine ⟨registerUID_joinLines uid name role prev, ?_⟩
  rw [registerUID_joinLines]
  have hrecnl : '\n' ∉ recLine uid name role :=
    recLine_no_newline (not_mem_normUID (by decide) hun) (not_mem_trimL hnn)
      (not_mem_normUID (by decide) hrn)
  have hall : ∀ l ∈ prev ++ [recLine uid name role], '\n' ∉ l := by
    intro l hl
    rcases List.mem_append.1 hl with hl | hl
    · exact hprev l hl
    · rw [List.mem_singleton.1 hl]
      exact hrecnl
  show checkUID v true true (joinLines (prev ++ [recLine uid name role]))
    = some (trimL name, toUpperL (trimL role))
  rw [checkUID_true_true, readLines_joinLines hall, hv]
  have hpn : checkScan (normUID uid) prev = none := by
    rw [checkUID_true_true, readLines_joinLines hprev] at hnomatch
    exact hnomatch
  rw [checkScan_append_none hpn]
  have hf : lineFields (recLine uid name role)
      = some (toUpperL (trimL uid), trimL name, toUpperL (trimL role)) :=
    lineFields_record (trimL name) (normUID_idem uid) (normUID_idem role)
      (not_mem_normUID (by decide) huc) (not_mem_normUID (by decide) hrc)
  rw [checkScan_cons_some hf,
    if_pos (show (toUpperL (trimL uid), trimL name,
      toUpperL (trimL role)).1 = normUID uid from rfl)]

/-- Witness for the amended C2, the scenario from the specification: empty
store, insert (aa:bb:cc:dd, Alice, a), lookup of the uppercase variant
AA:BB:CC:DD returns name Alice and role A. -/
theorem c2_register_lookup_roundtrip_witness :
    registerUID ("aa:bb:cc:dd".toList) ("Alice".toList) ("a".toList) true
        (joinLines [])
      = (joinLines ([] ++ [recLine ("aa:bb:cc:dd".toList) ("Alice".toList)
          ("a".toList)]), true) ∧
    checkUID ("AA:BB:CC:DD".toList) true true
        (registerUID ("aa:bb:cc:dd".toList) ("Alice".toList) ("a".toList)
          true (joinLines [])).1
      = some (trimL ("Alice".toList), toUpperL (trimL ("a".toList))) :=
  c2_register_lookup_roundtrip ("aa:bb:cc:dd".toList) ("Alice".toList)
    ("a".toList) ("AA:BB:CC:DD".toList) [] (by decide) (by decide)
    (by decide) (by decide) (by decide) (by decide) (by decide) (by decide)

/-- C5: inserting a uid that is already present (the lookup succeeds on the
well-formed store) appends one more matching record, so the store then
holds at least two records with that uid: `registerUID` performs no
uniqueness check. -/
theorem c5_duplicate_insert (uid name role : Str) (prev : List Str)
    (hnn : '\n' ∉ name) (hrn : '\n' ∉ role)
    (hprev : ∀ l ∈ prev, '\n' ∉ l)
    (hdup : (checkUID uid true true (joinLines prev)).isSome = true) :
    (registerUID uid name role true (joinLines prev)).2 = true ∧
    countMatches (normUID uid)
        (readLines (registerUID uid name role true (joinLines prev)).1)
      = countMatches (normUID uid) (readLines (joinLines prev)) + 1 ∧
    2 ≤ countMatches (normUID uid)
        (readLines (registerUID uid name role true (joinLines prev)).1) := by
  obtain ⟨r, hr⟩ := Option.isSome_iff_exists.1 hdup
  have hscan : checkScan (normUID uid) prev = some r := by
    rw [checkUID_true_true, readLines_joinLines hprev] at hr
    exact hr
  obtain ⟨hNn, hUc, hUnl⟩ := checkScan_uid_shape hprev hscan
  have hUnorm : normUID (toUpperL (trimL uid)) = toUpperL (trimL uid) := hNn
  have hrecnl : '\n' ∉ recLine uid name role :=
    recLine_no_newline hUnl (not_mem_trimL hnn)
      (not_mem_normUID (by decide) hrn)
  have hall : ∀ l ∈ prev ++ [recLine uid name role], '\n' ∉ l := by
    intro l hl
    rcases List.mem_append.1 hl with hl | hl
    · exact hprev l hl
    · rw [List.mem_singleton.1 hl]
      exact hrecnl
  obtain ⟨n2, r2, hf⟩ :=
    lineFields_record_exists (trimL name) hUnorm (normUID_idem role) hUc
  have hf2 : lineFields (recLine uid name role)
      = some (toUpperL (trimL uid), n2, r2) := hf
  have hm : lineMatches (normUID uid) (recLine uid name role) = true := by
    rw [lineMatches, hf2]
    exact beq_self_eq_true _
  have hone : ∃ l ∈ prev, lineMatches (normUID uid) l = true :=
    checkScan_exists_match hscan
  obtain ⟨l0, hl0, hm0⟩ := hone
  have hpos := countMatches_pos hl0 hm0
  rw [registerUID_joinLines]
  show (true = true) ∧ _
  refine ⟨rfl, ?_⟩
  rw [readLines_joinLines hall, readLines_joinLines hprev,
    countMatches_append, countMatches_singleton hm]
  exact ⟨rfl, by omega⟩

/-- Witness for C5: the store already holds AA,Bob,U; inserting uid aa
again (as Eve) yields two records matching AA. -/
theorem c5_duplicate_insert_witness :
    (registerUID ("aa".toList) ("Eve".toList) ("A".toList) true
        (joinLines ["AA,Bob,U".toList])).2 = true ∧
    countMatches (normUID ("aa".toList))
        (readLines (registerUID ("aa".toList) ("Eve".toList) ("A".toList)
          true (joinLines ["AA,Bob,U".toList])).1)
      = countMatches (normUID ("aa".toList))
          (readLines (joinLines ["AA,Bob,U".toList])) + 1 ∧
    2 ≤ countMatches (normUID ("aa".toList))
        (readLines (registerUID ("aa".toList) ("Eve".toList) ("A".toList)
          true (joinLines ["AA,Bob,U".toList])).1) :=
  c5_duplicate_insert ("aa".toList) ("Eve".toList) ("A".toList)
    ["AA,Bob,U".toList] (by decide) (by decide) (by decide) (by decide)

/-- C9 counterexample: the claim says every record the insert path can
write has a role that is A or U and an uppercase hex-pair uid.  The code
validates neither: inserting role x (and uid zz) succeeds and writes the
record ZZ,Bob,X whose role field X is neither A nor U. -/
theorem c9_role_not_validated_cex :
    (registerUID ("zz".toList) ("Bob".toList) ("x".toList) true []).2
      = true ∧
    readLines (registerUID ("zz".toList) ("Bob".toList) ("x".toList) true
        []).1 = ["ZZ,Bob,X".toList] ∧
    lineFields ("ZZ,Bob,X".toList)
      = some ("ZZ".toList, "Bob".toList, "X".toList) ∧
    "X".toList ≠ "A".toList ∧ "X".toList ≠ "U".toList := by
  decide

/-- C9 (amended): every record appended by the insert path carries exactly
the trimmed, uppercased uid, the trimmed name, and the trimmed, uppercased
role, and parses back as such; the role is a single uppercase A or U (and
the uid uppercase hex pairs) only when the supplied input already had that
shape, because no validation is performed. -/
theorem c9_insert_normalizes_fields (uid name role : Str) (prev : List Str)
    (huc : ',' ∉ uid) (hun : '\n' ∉ uid) (hnn : '\n' ∉ name)
    (hrc : ',' ∉ role) (hrn : '\n' ∉ role)
    (hprev : ∀ l ∈ prev, '\n' ∉ l) :
    registerUID uid name role true (joinLines prev)
      = (joinLines (prev ++ [recLine uid name role]), true) ∧
    readLines (registerUID uid name role true (joinLines prev)).1
      = prev ++ [recLine uid name role] ∧
    lineFields (recLine uid name role)
      = some (normUID uid, trimL name, normUID role) := by
  have hrecnl : '\n' ∉ recLine uid name role :=
    recLine_no_newline (not_mem_normUID (by decide) hun) (not_mem_trimL hnn)
      (not_mem_normUID (by decide) hrn)
  have hall : ∀ l ∈ prev ++ [recLine uid name role], '\n' ∉ l := by
    intro l hl
    rcases List.mem_append.1 hl with hl | hl
    · exact hprev l hl
    · rw [List.mem_singleton.1 hl]
      exact hrecnl
  refine ⟨registerUID_joinLines uid name role prev, ?_, ?_⟩
  · rw [registerUID_joinLines]
    exact readLines_joinLines hall
  · exact lineFields_record (trimL name) (normUID_idem uid)
      (normUID_idem role) (not_mem_normUID (by decide) huc)
      (not_mem_normUID (by decide) hrc)

/-- Witness for the amended C9: inserting role x stores the record line
ZZ,Bob,X whose parsed role field is X, the uppercased input, not A or U. -/
theorem c9_insert_normalizes_fields_witness :
    registerUID ("zz".toList) ("Bob".toList) ("x".toList) true (joinLines [])
      = (joinLines ([] ++ [recLine ("zz".toList) ("Bob".toList)
          ("x".toList)]), true) ∧
    readLines (registerUID ("zz".toList) ("Bob".toList) ("x".toList) true
        (joinLines [])).1
      = [] ++ [recLine ("zz".toList) ("Bob".toList) ("x".toList)] ∧
    lineFields (recLine ("zz".toList) ("Bob".toList) ("x".toList))
      = some (normUID ("zz".toList), trimL ("Bob".toList),
          normUID ("x".toList)) :=
  c9_insert_normalizes_fields ("zz".toList) ("Bob".toList) ("x".toList) []
    (by decide) (by decide) (by decide) (by decide) (by decide) (by decide)

end RFID
